import Mathlib

/-!
Verification of the Ethereum value codecs in `gnosis/eth/django/models.py`:
address (EIP-55), 32-byte keccak hash, generic hex blob, and uint256 fields.

Python strings are modelled as `List Char`, byte strings as `List Nat`
(every element `< 256` where produced by decoding), and fallible Python
code as `Except PyErr`.  The keccak-256 hash is implemented in full so the
EIP-55 checksum computations are concrete and executable.
-/

set_option maxRecDepth 4000

/-! ## Hexadecimal primitives -/

/-- Numeric value of a hexadecimal digit character, case-insensitive
(`binascii.unhexlify` accepts both cases). `none` on non-hex characters. -/
def hexCharVal (c : Char) : Option Nat :=
  if 48 ≤ c.toNat ∧ c.toNat ≤ 57 then some (c.toNat - 48)
  else if 97 ≤ c.toNat ∧ c.toNat ≤ 102 then some (c.toNat - 87)
  else if 65 ≤ c.toNat ∧ c.toNat ≤ 70 then some (c.toNat - 55)
  else none

/-- Lowercase hexadecimal digit character for a nibble value (`bytes.hex()`
produces lowercase digits). -/
def hexDigitChar (d : Nat) : Char :=
  if d = 0 then '0' else if d = 1 then '1' else if d = 2 then '2'
  else if d = 3 then '3' else if d = 4 then '4' else if d = 5 then '5'
  else if d = 6 then '6' else if d = 7 then '7' else if d = 8 then '8'
  else if d = 9 then '9' else if d = 10 then 'a' else if d = 11 then 'b'
  else if d = 12 then 'c' else if d = 13 then 'd' else if d = 14 then 'e'
  else if d = 15 then 'f' else '?'

/-- Uppercase variant of `hexDigitChar`, used by the EIP-55 case pattern
(`str.upper()` on a hex digit). -/
def upperHexDigitChar (d : Nat) : Char :=
  if d = 10 then 'A' else if d = 11 then 'B' else if d = 12 then 'C'
  else if d = 13 then 'D' else if d = 14 then 'E' else if d = 15 then 'F'
  else hexDigitChar d

/-- Python `str.lower()` on a single character (ASCII range, which is all
this code ever lowercases). -/
def lowerChar (c : Char) : Char :=
  if 'A' ≤ c ∧ c ≤ 'Z' then Char.ofNat (c.toNat + 32) else c

/-- Python `str.lower()` over a whole string. -/
def lowerStr (s : List Char) : List Char := s.map lowerChar

/-- Decode a hex string two characters at a time into byte values, as
`binascii.unhexlify` does; fails on odd length or non-hex characters. -/
def decodePairs : List Char → Option (List Nat)
  | [] => some []
  | [_] => none
  | c1 :: c2 :: rest =>
    match hexCharVal c1, hexCharVal c2, decodePairs rest with
    | some v1, some v2, some bs => some ((16 * v1 + v2) :: bs)
    | _, _, _ => none

/-- Remove a leading `0x` or `0X` marker from a hex string, as
`hexstr.startswith(("0x", "0X"))` dispatch does in
`hexbytes._utils.hexstr_to_bytes`. -/
def strip0x (s : List Char) : List Char :=
  match s with
  | c1 :: c2 :: rest =>
    if c1 = '0' ∧ (c2 = 'x' ∨ c2 = 'X') then rest else c1 :: c2 :: rest
  | s => s

/-- `hexbytes._utils.hexstr_to_bytes`: strip the `0x`/`0X` marker, left-pad
odd-length hex with one `'0'`, then decode; `none` models the
`binascii.Error`/`ValueError` raised on non-hex input. -/
def hexstrToBytes (s : List Char) : Option (List Nat) :=
  let np := strip0x s
  let padded := if s.length % 2 = 1 then '0' :: np else np
  decodePairs padded

/-- Split each byte of a byte string into its two nibbles, high nibble
first (the nibble sequence of the hex rendering). -/
def bytesToNibbles : List Nat → List Nat
  | [] => []
  | b :: bs => b / 16 :: b % 16 :: bytesToNibbles bs

/-- `bytes.hex()`: lowercase hex rendering of a byte string, without any
`0x` marker. -/
def bytesToHex (bs : List Nat) : List Char :=
  (bytesToNibbles bs).map hexDigitChar

/-- ASCII code of the lowercase hex digit for a nibble; `keccak` in the
EIP-55 checksum is applied to exactly these ASCII bytes. -/
def nibbleAscii (d : Nat) : Nat := if d < 10 then 48 + d else 87 + d

/-- Characters of a Lean string literal, for concrete test inputs. -/
def chars (s : String) : List Char := s.data

/-! ## Keccak-256 -/

/-- Reduce a lane value to 64 bits. -/
def w64 (n : Nat) : Nat := n % 18446744073709551616

/-- Rotate a 64-bit lane left by `n` bits. -/
def rotl64 (x n : Nat) : Nat := w64 ((x <<< n) ||| (x >>> (64 - n)))

/-- The 24 keccak-f[1600] round constants, written in decimal. -/
def keccakRC : List Nat :=
  [1, 32898, 9223372036854808714,
   9223372039002292224, 32907, 2147483649,
   9223372039002292353, 9223372036854808585, 138,
   136, 2147516425, 2147483658,
   2147516555, 9223372036854775947, 9223372036854808713,
   9223372036854808579, 9223372036854808578, 9223372036854775936,
   32778, 9223372039002259466, 9223372039002292353,
   9223372036854808704, 2147483649, 9223372039002292232]

/-- Rotation offset of the rho step for the lane at index `x + 5 * y`. -/
def rhoOffset : Nat → Nat
  | 1 => 1
  | 2 => 62
  | 3 => 28
  | 4 => 27
  | 5 => 36
  | 6 => 44
  | 7 => 6
  | 8 => 55
  | 9 => 20
  | 10 => 3
  | 11 => 10
  | 12 => 43
  | 13 => 25
  | 14 => 39
  | 15 => 41
  | 16 => 45
  | 17 => 15
  | 18 => 21
  | 19 => 8
  | 20 => 18
  | 21 => 2
  | 22 => 61
  | 23 => 56
  | 24 => 14
  | _ => 0

/-- Lane `(x, y)` of a 25-lane state, coordinates taken mod 5. -/
def lane (s : List Nat) (x y : Nat) : Nat := s.getD (x % 5 + 5 * (y % 5)) 0

/-- Theta step of keccak-f. -/
def theta (s : List Nat) : List Nat :=
  let C := (List.range 5).map fun x =>
    lane s x 0 ^^^ lane s x 1 ^^^ lane s x 2 ^^^ lane s x 3 ^^^ lane s x 4
  let D := (List.range 5).map fun x =>
    C.getD ((x + 4) % 5) 0 ^^^ rotl64 (C.getD ((x + 1) % 5) 0) 1
  (List.range 25).map fun i => s.getD i 0 ^^^ D.getD (i % 5) 0

/-- Combined rho and pi steps of keccak-f. -/
def rhoPi (s : List Nat) : List Nat :=
  (List.range 25).map fun i =>
    let X := i % 5
    let Y := i / 5
    let x := (X + 3 * Y) % 5
    let y := X
    rotl64 (lane s x y) (rhoOffset (x + 5 * y))

/-- Chi step of keccak-f. -/
def chi (s : List Nat) : List Nat :=
  (List.range 25).map fun i =>
    let X := i % 5
    let Y := i / 5
    lane s X Y ^^^ ((lane s (X + 1) Y ^^^ 0xFFFFFFFFFFFFFFFF) &&& lane s (X + 2) Y)

/-- Iota step of keccak-f: fold the round constant into lane (0,0). -/
def iotaStep (rc : Nat) (s : List Nat) : List Nat :=
  match s with
  | [] => []
  | a :: rest => (a ^^^ rc) :: rest

/-- The full keccak-f[1600] permutation: 24 rounds. -/
def keccakF (s : List Nat) : List Nat :=
  keccakRC.foldl (fun st rc => iotaStep rc (chi (rhoPi (theta st)))) s

/-- Multi-rate padding of keccak (domain byte `0x01`, final bit `0x80`),
rate 136 bytes. -/
def padKeccak (msg : List Nat) : List Nat :=
  let padLen := 136 - msg.length % 136
  if padLen = 1 then msg ++ [0x81]
  else msg ++ [0x01] ++ List.replicate (padLen - 2) 0 ++ [0x80]

/-- Little-endian lane value of up to 8 bytes. -/
def bytesToLane (bs : List Nat) : Nat := bs.foldr (fun b acc => acc * 256 + b) 0

/-- Split `k` lanes off a byte string, 8 bytes per lane, little-endian. -/
def chunkLanes : Nat → List Nat → List Nat
  | 0, _ => []
  | k + 1, bs => bytesToLane (bs.take 8) :: chunkLanes k (bs.drop 8)

/-- Absorb `k` consecutive 136-byte blocks of the padded message into the
state, permuting after each block. -/
def absorbBlocks : Nat → List Nat → List Nat → List Nat
  | 0, st, _ => st
  | k + 1, st, msg =>
    let block := chunkLanes 17 (msg.take 136)
    let st' := keccakF ((List.range 25).map fun i => st.getD i 0 ^^^ block.getD i 0)
    absorbBlocks k st' (msg.drop 136)

/-- The 8 little-endian bytes of a 64-bit lane. -/
def laneToBytes (n : Nat) : List Nat :=
  (List.range 8).map fun i => (n >>> (8 * i)) % 256

/-- Keccak-256 of a byte string: absorb the padded message into an all-zero
state and squeeze the first 32 bytes (4 lanes). -/
def keccak256 (msg : List Nat) : List Nat :=
  let padded := padKeccak msg
  let st := absorbBlocks (padded.length / 136) (List.replicate 25 0) padded
  ((st.take 4).map laneToBytes).flatten

/-! ## Python value and error model -/

/-- A Python value at the codec boundary: `None`, a `str`, a `bytes`, or a
`HexBytes` (a `bytes` subclass that the code type-dispatches on). -/
inductive PyVal where
  | none
  | str (s : List Char)
  | bytes (b : List Nat)
  | hexBytes (b : List Nat)
deriving DecidableEq, Repr

/-- An exception escaping a codec operation: Django's `ValidationError`
(with its `code` and the offending `params["value"]`), or a plain Python
`ValueError` / `TypeError`, or `decimal.InvalidOperation` raised by the
`DecimalField` precision check. -/
inductive PyErr where
  | validation (code : List Char) (value : PyVal)
  | valueError
  | typeError
  | invalidOperation
deriving DecidableEq, Repr

deriving instance DecidableEq for Except

/-- Python truthiness of the values above: `None`, `""` and `b""` are
falsy, everything else truthy. -/
def pyTruthy : PyVal → Bool
  | .none => false
  | .str s => s ≠ []
  | .bytes b => b ≠ []
  | .hexBytes b => b ≠ []

/-- The `HexBytes(value)` constructor on a non-`None` value: `bytes` and
`HexBytes` pass through, a `str` goes through `hexstr_to_bytes`; `none`
models the `ValueError`/`binascii.Error` on invalid hex. -/
def hexBytesOf : PyVal → Option (List Nat)
  | .none => Option.none
  | .str s => hexstrToBytes s
  | .bytes b => some b
  | .hexBytes b => some b

/-! ## AddressCodec (EIP-55) -/

/-- The EIP-55 case pattern: the `i`-th hex digit of the address is
uppercased exactly when the `i`-th nibble of the keccak hash exceeds 7. -/
def checksumCase (addrNibbles hashNibbles : List Nat) : List Char :=
  List.zipWith
    (fun d h => if 7 < h then upperHexDigitChar d else hexDigitChar d)
    addrNibbles hashNibbles

/-- Canonical EIP-55 checksummed rendering of a 20-byte address: `0x`
followed by the 40 hex digits cased by the keccak-256 hash of the ASCII
bytes of the lowercase hex digits. -/
def checksummedAddress (bs : List Nat) : List Char :=
  let nib := bytesToNibbles bs
  let hash := keccak256 (nib.map nibbleAscii)
  '0' :: 'x' :: checksumCase nib (bytesToNibbles hash)

/-- Modelled from the spec: `eth_utils.to_checksum_address`, the library
dependency the repo calls (its source is not under `src/`).  Per the spec,
it accepts raw 20 bytes or a hex string (with or without `0x`, any letter
case), fails (`none`, a `ValueError` in Python) unless the input is valid
hex of exactly 20 bytes, and returns the canonical mixed-case `0x`-prefixed
string whose case pattern derives from the keccak-256 hash of the lowercase
hex digits. -/
def to_checksum_address (v : PyVal) : Option (List Char) :=
  match v with
  | .none => Option.none
  | .bytes b | .hexBytes b =>
    if b.length = 20 ∧ b.all (· < 256) then some (checksummedAddress b)
    else Option.none
  | .str s =>
    let np := strip0x s
    if np.length = 40 then
      match decodePairs np with
      | some bs => some (checksummedAddress bs)
      | Option.none => Option.none
    else Option.none

/-- Modelled from the spec: `validate_checksumed_address` from
`gnosis/eth/django/validators.py`, a repo file absent from `src/`.  Per
the spec it is true iff the value is a syntactically valid 40-hex-digit
`0x`-prefixed address whose case pattern matches the checksum computed
from its lowercase form. -/
def validate_checksumed_address (s : List Char) : Bool :=
  match s with
  | c1 :: c2 :: rest =>
    if c1 = '0' ∧ c2 = 'x' then
      if rest.length = 40 then
        match decodePairs rest with
        | some bs => if s = checksummedAddress bs then true else false
        | Option.none => false
      else false
    else false
  | _ => false

namespace EthereumAddressField

/-- `EthereumAddressField.to_python` (models.py lines 43-55).  The field is
a `CharField`, so its Python-level values are strings or `None`
(`CharField.to_python` passes both through unchanged).  Falsy values are
returned as they are; truthy ones go through `to_checksum_address`, a
`ValueError` becoming a `ValidationError` with code `invalid` carrying the
offending value. -/
def to_python (v : Option (List Char)) : Except PyErr (Option (List Char)) :=
  match v with
  | Option.none => .ok Option.none
  | some s =>
    if s = [] then .ok (some s)
    else
      match to_checksum_address (.str s) with
      | some cs => .ok (some cs)
      | Option.none => .error (.validation (chars "invalid") (.str s))

end EthereumAddressField

namespace EthereumAddressV2Field

/-- `EthereumAddressV2Field.to_python` (models.py lines 88-97): `None`
passes through; any other value goes through `to_checksum_address`, a
`ValueError` becoming a `ValidationError` with code `invalid`. -/
def to_python (v : PyVal) : Except PyErr (Option (List Char)) :=
  match v with
  | .none => .ok Option.none
  | val =>
    match to_checksum_address val with
    | some cs => .ok (some cs)
    | Option.none => .error (.validation (chars "invalid") val)

/-- `EthereumAddressV2Field.get_prep_value` (models.py lines 84-86): falsy
values store as `None`; otherwise the checksummed string from `to_python`
is decoded to its 20 raw bytes with `HexBytes`. -/
def get_prep_value (v : PyVal) : Except PyErr (Option (List Nat)) :=
  if pyTruthy v = false then .ok Option.none
  else
    match to_python v with
    | .error e => .error e
    | .ok Option.none => .ok Option.none
    | .ok (some cs) =>
      match hexstrToBytes cs with
      | some bs => .ok (some bs)
      | Option.none => .error .valueError

/-- `EthereumAddressV2Field.from_db_value` (models.py lines 78-82): falsy
(empty or `NULL`) database values load as `None`, otherwise the stored
bytes are re-checksummed from their hex rendering. -/
def from_db_value (v : Option (List Nat)) : Except PyErr (Option (List Char)) :=
  match v with
  | Option.none => .ok Option.none
  | some b =>
    if b = [] then .ok Option.none
    else
      match to_checksum_address (.str (bytesToHex b)) with
      | some cs => .ok (some cs)
      | Option.none => .error .valueError

end EthereumAddressV2Field

/-! ## Uint256Codec -/

/-- Decimal digit values of `n`, least significant first, with explicit
structural fuel so the definition evaluates in the kernel. -/
def decDigitsRev : Nat → Nat → List Nat
  | 0, _ => []
  | _ + 1, 0 => []
  | fuel + 1, n + 1 => (n + 1) % 10 :: decDigitsRev fuel ((n + 1) / 10)

/-- Decimal digit character for a digit value `< 10`. -/
def digitChar (d : Nat) : Char :=
  if d = 0 then '0' else if d = 1 then '1' else if d = 2 then '2'
  else if d = 3 then '3' else if d = 4 then '4' else if d = 5 then '5'
  else if d = 6 then '6' else if d = 7 then '7' else if d = 8 then '8'
  else if d = 9 then '9' else '?'

/-- Decimal rendering of a natural number, as `str(n)` produces it. -/
def natToDecChars (n : Nat) : List Char :=
  if n = 0 then ['0'] else ((decDigitsRev n n).map digitChar).reverse

/-- Decimal rendering of an integer, as `"{:f}".format(Decimal(i))`
produces it for an integral `Decimal`. -/
def intToDecChars (i : Int) : List Char :=
  if i < 0 then '-' :: natToDecChars i.natAbs else natToDecChars i.natAbs

/-- Number of significant decimal digits of `n` (the `Decimal` coefficient
length; the sign does not count). -/
def decDigitCount (n : Nat) : Nat := (natToDecChars n).length

/-- Python `int(s)` on a string of decimal digits. -/
def parseDecNat (cs : List Char) : Nat :=
  cs.foldl (fun a c => 10 * a + (c.toNat - 48)) 0

/-- Python `int(s)` on an optionally `-`-signed decimal string. -/
def parseInt (cs : List Char) : Int :=
  match cs with
  | c :: rest =>
    if c = '-' then -(parseDecNat rest : Int) else (parseDecNat (c :: rest) : Int)
  | [] => (parseDecNat [] : Int)

namespace Uint256Field

/-- The storage encoding of `Uint256Field`: `DecimalField.get_prep_value`
plus the backend's `format_number` with the `max_digits = 79`,
`decimal_places = 0` configuration fixed by `Uint256Field.__init__`
(models.py lines 107-110).  `None` passes through; a value whose
coefficient exceeds 79 significant decimal digits makes the `Decimal`
quantization raise `decimal.InvalidOperation`; anything else — including
negative values and values `≥ 2**256` of at most 79 digits — is stored as
its plain decimal string. -/
def get_prep_value (v : Option Int) : Except PyErr (Option (List Char)) :=
  match v with
  | Option.none => .ok Option.none
  | some i =>
    if 79 < decDigitCount i.natAbs then .error .invalidOperation
    else .ok (some (intToDecChars i))

/-- `Uint256Field.from_db_value` (models.py lines 118-121): `None` loads
as `None`, anything else as `int(value)`. -/
def from_db_value (v : Option (List Char)) : Option Int :=
  match v with
  | Option.none => Option.none
  | some s => some (parseInt s)

end Uint256Field

/-! ## HexCodec (`HexField`, whose `Sha3HashField` subclass only fixes
`max_length = 64`) -/

namespace HexField

/-- `HexField.to_python` (models.py lines 136-137): `None` passes through,
anything else becomes `HexBytes(value).hex()`, the `0x`-prefixed lowercase
rendering. -/
def to_python (v : PyVal) : Except PyErr PyVal :=
  match v with
  | .none => .ok .none
  | val =>
    match hexBytesOf val with
    | some bs => .ok (.str ('0' :: 'x' :: bytesToHex bs))
    | Option.none => .error .valueError

/-- `HexField.get_prep_value` (models.py lines 139-149): `None` passes
through; a `HexBytes` stores as `value.hex()[2:]`, raw `bytes` as
`value.hex()`, and a `str` as `HexBytes(value).hex()[2:]` — always the
unprefixed lowercase hex. -/
def get_prep_value (v : PyVal) : Except PyErr PyVal :=
  match v with
  | .none => .ok .none
  | .hexBytes b => .ok (.str (bytesToHex b))
  | .bytes b => .ok (.str (bytesToHex b))
  | .str s =>
    match hexstrToBytes s with
    | some bs => .ok (.str (bytesToHex bs))
    | Option.none => .error .valueError

/-- `HexField.clean` (models.py lines 160-165): normalize with
`to_python`, run `Field.validate` (which rejects `None` unless the field
is nullable), then `self.run_validators(value[2:])` — on a `None` value the
subscript `value[2:]` raises `TypeError`.  The only validator a `HexField`
carries is `CharField`'s `MaxLengthValidator` when `max_length` is set,
here applied to the unprefixed digits. -/
def clean (null : Bool) (maxLength : Option Nat) (v : PyVal) : Except PyErr PyVal :=
  match to_python v with
  | .error e => .error e
  | .ok .none =>
    if null then .error .typeError
    else .error (.validation (chars "null") .none)
  | .ok (.str s) =>
    match maxLength with
    | some m =>
      if m < (s.drop 2).length then .error (.validation (chars "max_length") (.str s))
      else .ok (.str s)
    | Option.none => .ok (.str s)
  | .ok val => .ok val

end HexField

/-! ## HashCodec (`Keccak256Field`) -/

namespace Keccak256Field

/-- `Keccak256Field.to_bytes` (models.py lines 195-213): `None` passes
through; otherwise `HexBytes(value)` must decode and have exactly 32
bytes, a decode failure raising the `invalid` `ValidationError` and a
length mismatch the `length` one, both carrying the offending value. -/
def to_bytes (v : PyVal) : Except PyErr (Option (List Nat)) :=
  match v with
  | .none => .ok Option.none
  | val =>
    match hexBytesOf val with
    | some bs =>
      if bs.length ≠ 32 then .error (.validation (chars "length") val)
      else .ok (some bs)
    | Option.none => .error (.validation (chars "invalid") val)

/-- `Keccak256Field.get_prep_value` (models.py lines 221-223): falsy
values store as `None`, truthy ones through `to_bytes`. -/
def get_prep_value (v : PyVal) : Except PyErr (Option (List Nat)) :=
  if pyTruthy v = false then .ok Option.none else to_bytes v

/-- `Keccak256Field.from_db_value` (models.py lines 215-219): falsy
database values load as `None`, stored bytes as their `0x`-prefixed hex
rendering. -/
def from_db_value (v : Option (List Nat)) : Option (List Char) :=
  match v with
  | Option.none => Option.none
  | some b => if b = [] then Option.none else some ('0' :: 'x' :: bytesToHex b)

end Keccak256Field

/-! ## Decimal rendering lemmas -/

theorem decDigitsRev_eq_digits (fuel n : Nat) (h : n ≤ fuel) :
    decDigitsRev fuel n = Nat.digits 10 n := by
  induction fuel generalizing n with
  | zero =>
    interval_cases n
    simp [decDigitsRev]
  | succ fuel ih =>
    match n with
    | 0 => simp [decDigitsRev]
    | m + 1 =>
      rw [decDigitsRev, Nat.digits_def' (by norm_num : 1 < 10) (Nat.succ_pos m)]
      rw [ih ((m + 1) / 10) (by omega)]

theorem digitChar_toNat (d : Nat) (h : d < 10) : (digitChar d).toNat = 48 + d := by
  interval_cases d <;> decide

theorem digitChar_ne_dash (d : Nat) (h : d < 10) : digitChar d ≠ '-' := by
  interval_cases d <;> decide

theorem parse_foldl_rev_map (ds : List Nat) (a : Nat) (h : ∀ d ∈ ds, d < 10) :
    List.foldl (fun a c => 10 * a + (c.toNat - 48)) a ((ds.map digitChar).reverse) =
      a * 10 ^ ds.length + Nat.ofDigits 10 ds := by
  induction ds generalizing a with
  | nil => simp
  | cons d ds ih =>
    have hd : d < 10 := h d (List.mem_cons_self d ds)
    have hds : ∀ x ∈ ds, x < 10 := fun x hx => h x (List.mem_cons_of_mem d hx)
    simp only [List.map_cons, List.reverse_cons, List.foldl_append, List.foldl_cons,
      List.foldl_nil, ih a hds, Nat.ofDigits_cons, List.length_cons]
    rw [digitChar_toNat d hd, pow_succ]
    ring_nf
    omega

theorem parseDecNat_natToDecChars (n : Nat) : parseDecNat (natToDecChars n) = n := by
  by_cases h0 : n = 0
  · subst h0; decide
  · have hdig : decDigitsRev n n = Nat.digits 10 n := decDigitsRev_eq_digits n n le_rfl
    have hlt : ∀ d ∈ Nat.digits 10 n, d < 10 :=
      fun d hd => Nat.digits_lt_base (by norm_num) hd
    rw [natToDecChars, if_neg h0, hdig]
    unfold parseDecNat
    rw [parse_foldl_rev_map _ 0 hlt, Nat.ofDigits_digits]
    ring

theorem natToDecChars_mem_ne_dash (n : Nat) (c : Char) (hc : c ∈ natToDecChars n) :
    c ≠ '-' := by
  by_cases h0 : n = 0
  · subst h0
    have h1 : natToDecChars 0 = ['0'] := rfl
    rw [h1, List.mem_singleton] at hc
    subst hc; decide
  · rw [natToDecChars, if_neg h0, decDigitsRev_eq_digits n n le_rfl] at hc
    rw [List.mem_reverse, List.mem_map] at hc
    obtain ⟨d, hd, rfl⟩ := hc
    exact digitChar_ne_dash d (Nat.digits_lt_base (by norm_num) hd)

theorem parseInt_natToDecChars (n : Nat) : parseInt (natToDecChars n) = n := by
  have hne : natToDecChars n ≠ [] := by
    by_cases h0 : n = 0
    · subst h0; decide
    · rw [natToDecChars, if_neg h0]
      intro h
      have := congrArg List.length h
      simp only [List.length_reverse, List.length_map, List.length_nil] at this
      rw [decDigitsRev_eq_digits n n le_rfl] at this
      exact h0 (Nat.digits_eq_nil_iff_eq_zero.mp (List.length_eq_zero.mp this))
  obtain ⟨c, rest, hcr⟩ := List.exists_cons_of_ne_nil hne
  rw [hcr, parseInt,
    if_neg (natToDecChars_mem_ne_dash n c (hcr ▸ List.mem_cons_self c rest)),
    ← hcr, parseDecNat_natToDecChars]

theorem parseInt_intToDecChars (i : Int) : parseInt (intToDecChars i) = i := by
  by_cases hneg : i < 0
  · rw [intToDecChars, if_pos hneg, parseInt, if_pos rfl, parseDecNat_natToDecChars]
    omega
  · rw [intToDecChars, if_neg hneg, parseInt_natToDecChars]
    omega

theorem decDigitCount_le_of_lt_pow (n k : Nat) (h : n < 10 ^ k) (hk : 1 ≤ k) :
    decDigitCount n ≤ k := by
  by_cases h0 : n = 0
  · subst h0
    simpa [decDigitCount, natToDecChars] using hk
  · have hlen : decDigitCount n = (Nat.digits 10 n).length := by
      rw [decDigitCount, natToDecChars, if_neg h0, decDigitsRev_eq_digits n n le_rfl]
      simp
    have hb : (10 : Nat) ^ (Nat.digits 10 n).length ≤ 10 * n :=
      Nat.base_pow_length_digits_le 10 n (by norm_num) h0
    have h2 : (10 : Nat) ^ (Nat.digits 10 n).length < 10 ^ (k + 1) := by
      calc (10 : Nat) ^ (Nat.digits 10 n).length ≤ 10 * n := hb
        _ < 10 * 10 ^ k := by omega
        _ = 10 ^ (k + 1) := by ring
    have := (Nat.pow_lt_pow_iff_right (by norm_num : 1 < 10)).mp h2
    omega

/-! ## C1 / C7: Uint256Field -/

/-- C1 counterexample: the claim says encoding `v = -2` (and `v = 2**256`)
fails with `Overflow`, but `Uint256Field` stores `-2` as the decimal string
`"-2"` and `2**256` as its 78-digit decimal string without any error — the
only bound the field enforces is the 79-digit `DecimalField` precision, as
its own test `test_uint256_field` asserts by round-tripping `-2`, `2**256`
and `2**260` successfully. -/
theorem uint256_rejects_out_of_range_counterexample :
    Uint256Field.get_prep_value (some (-2)) = .ok (some (chars "-2")) ∧
    Uint256Field.get_prep_value (some (2 ^ 256)) =
      .ok (some (chars "115792089237316195423570985008687907853269984665640564039457584007913129639936")) := by
  constructor
  · decide
  · rfl

/-- C1 amended: storage encoding of `Uint256Field` fails (with
`decimal.InvalidOperation` from the 79-digit `DecimalField` precision)
exactly when the value's coefficient exceeds 79 decimal digits; every
value of at most 79 digits — negative values and values `≥ 2**256`
included — is stored as its decimal string and decodes back to itself,
and `2**263` (80 digits) is rejected. -/
theorem uint256_digit_bound :
    (∀ i : Int, 79 < decDigitCount i.natAbs →
      Uint256Field.get_prep_value (some i) = .error .invalidOperation) ∧
    (∀ i : Int, decDigitCount i.natAbs ≤ 79 →
      Uint256Field.get_prep_value (some i) = .ok (some (intToDecChars i)) ∧
      Uint256Field.from_db_value (some (intToDecChars i)) = some i) ∧
    Uint256Field.get_prep_value (some (2 ^ 263)) = .error .invalidOperation := by
  refine ⟨fun i hi => ?_, fun i hi => ⟨?_, ?_⟩, ?_⟩
  · rw [Uint256Field.get_prep_value, if_pos hi]
  · rw [Uint256Field.get_prep_value, if_neg (by omega)]
  · rw [Uint256Field.from_db_value, parseInt_intToDecChars]
  · decide

/-- Witness for `uint256_digit_bound` at `10^80` (81 digits, rejected) and
`-2` (1 digit, stored and round-tripped). -/
theorem uint256_digit_bound_witness :
    Uint256Field.get_prep_value (some ((10 : Int) ^ 80)) = .error .invalidOperation ∧
    (Uint256Field.get_prep_value (some (-2)) = .ok (some (intToDecChars (-2))) ∧
      Uint256Field.from_db_value (some (intToDecChars (-2))) = some (-2)) :=
  ⟨uint256_digit_bound.1 ((10 : Int) ^ 80) (by decide),
   uint256_digit_bound.2.1 (-2) (by decide)⟩

/-- C7: for every integer in `[0, 2**256 - 1]` the stored decimal string
decodes back (via `int(value)`) to the same arbitrary-precision integer. -/
theorem uint256_roundtrip (v : Int) (h0 : 0 ≤ v) (hlt : v ≤ 2 ^ 256 - 1) :
    Uint256Field.get_prep_value (some v) = .ok (some (intToDecChars v)) ∧
    Uint256Field.from_db_value (some (intToDecChars v)) = some v := by
  have hd : decDigitCount v.natAbs ≤ 79 := by
    apply decDigitCount_le_of_lt_pow _ _ _ (by norm_num)
    have h1 : v.natAbs ≤ 2 ^ 256 - 1 := by omega
    have h2 : (2 : Nat) ^ 256 - 1 < 10 ^ 79 := by norm_num
    omega
  exact uint256_digit_bound.2.1 v hd

/-- Witness for `uint256_roundtrip` at `v = 2^256 - 1`. -/
theorem uint256_roundtrip_witness :
    Uint256Field.get_prep_value (some ((2 : Int) ^ 256 - 1)) =
      .ok (some (intToDecChars ((2 : Int) ^ 256 - 1))) ∧
    Uint256Field.from_db_value (some (intToDecChars ((2 : Int) ^ 256 - 1))) =
      some ((2 : Int) ^ 256 - 1) :=
  uint256_roundtrip ((2 : Int) ^ 256 - 1) (by decide) (by decide)

/-! ## C6: `None` passes through every codec operation -/

/-- C6: `None` input returns `None`, without error, from every modelled
encode / decode / normalize operation of the four codecs. -/
theorem none_passthrough_all_codecs :
    EthereumAddressField.to_python Option.none = .ok Option.none ∧
    EthereumAddressV2Field.to_python .none = .ok Option.none ∧
    EthereumAddressV2Field.get_prep_value .none = .ok Option.none ∧
    EthereumAddressV2Field.from_db_value Option.none = .ok Option.none ∧
    Uint256Field.get_prep_value Option.none = .ok Option.none ∧
    Uint256Field.from_db_value Option.none = Option.none ∧
    HexField.to_python .none = .ok .none ∧
    HexField.get_prep_value .none = .ok .none ∧
    Keccak256Field.to_bytes .none = .ok Option.none ∧
    Keccak256Field.get_prep_value .none = .ok Option.none ∧
    Keccak256Field.from_db_value Option.none = Option.none :=
  ⟨rfl, rfl, rfl, rfl, rfl, rfl, rfl, rfl, rfl, rfl, rfl⟩

/-! ## C9: `HexField.clean` is not total on absent values -/

/-- C9: on a nullable `HexField` left empty, `clean` raises `TypeError`
(the unconditional `value[2:]` subscript on `None`), even though
`to_python` and `get_prep_value` pass `None` through. -/
theorem hexfield_clean_none_typeerror :
    HexField.clean true (some 64) .none = .error .typeError ∧
    HexField.clean true Option.none .none = .error .typeError ∧
    HexField.to_python .none = .ok .none ∧
    HexField.get_prep_value .none = .ok .none :=
  ⟨rfl, rfl, rfl, rfl⟩

/-! ## C10: falsy non-`None` inputs are treated as absent -/

/-- C10: the empty string passes through `EthereumAddressField.to_python`
unchanged (not rejected), and the empty string / empty byte string store
as `None` through the binary address and hash `get_prep_value`. -/
theorem falsy_treated_as_absent :
    EthereumAddressField.to_python (some []) = .ok (some []) ∧
    EthereumAddressV2Field.get_prep_value (.str []) = .ok Option.none ∧
    EthereumAddressV2Field.get_prep_value (.bytes []) = .ok Option.none ∧
    Keccak256Field.get_prep_value (.str []) = .ok Option.none ∧
    Keccak256Field.get_prep_value (.bytes []) = .ok Option.none := by
  refine ⟨rfl, ?_, ?_, ?_, ?_⟩ <;> decide

/-! ## Hex encode/decode round-trip lemmas -/

theorem hexCharVal_hexDigitChar (d : Nat) (h : d < 16) :
    hexCharVal (hexDigitChar d) = some d := by
  interval_cases d <;> decide

theorem hexDigitChar_ne_x (d : Nat) : hexDigitChar d ≠ 'x' ∧ hexDigitChar d ≠ 'X' := by
  by_cases h : d < 16
  · interval_cases d <;> exact ⟨by decide, by decide⟩
  · have hq : hexDigitChar d = '?' := by
      unfold hexDigitChar
      repeat rw [if_neg (by omega)]
    rw [hq]
    exact ⟨by decide, by decide⟩

theorem bytesToHex_cons (b : Nat) (rest : List Nat) :
    bytesToHex (b :: rest) =
      hexDigitChar (b / 16) :: hexDigitChar (b % 16) :: bytesToHex rest := rfl

theorem decodePairs_bytesToHex (bs : List Nat) (h : ∀ b ∈ bs, b < 256) :
    decodePairs (bytesToHex bs) = some bs := by
  induction bs with
  | nil => rfl
  | cons b rest ih =>
    have hb : b < 256 := h b (List.mem_cons_self b rest)
    have hrest := ih fun x hx => h x (List.mem_cons_of_mem b hx)
    rw [bytesToHex_cons, decodePairs, hexCharVal_hexDigitChar _ (by omega),
      hexCharVal_hexDigitChar _ (by omega), hrest]
    have hdm : 16 * (b / 16) + b % 16 = b := by omega
    show some ((16 * (b / 16) + b % 16) :: rest) = some (b :: rest)
    rw [hdm]

theorem strip0x_bytesToHex (bs : List Nat) : strip0x (bytesToHex bs) = bytesToHex bs := by
  cases bs with
  | nil => rfl
  | cons b rest =>
    rw [bytesToHex_cons, strip0x, if_neg]
    rintro ⟨-, h2 | h2⟩
    · exact (hexDigitChar_ne_x (b % 16)).1 h2
    · exact (hexDigitChar_ne_x (b % 16)).2 h2

theorem bytesToNibbles_length (bs : List Nat) :
    (bytesToNibbles bs).length = 2 * bs.length := by
  induction bs with
  | nil => rfl
  | cons b rest ih =>
    show (bytesToNibbles (b :: rest)).length = _
    rw [bytesToNibbles]
    simp only [List.length_cons, ih]
    omega

theorem bytesToHex_length (bs : List Nat) : (bytesToHex bs).length = 2 * bs.length := by
  rw [bytesToHex, List.length_map, bytesToNibbles_length]

theorem hexstrToBytes_bytesToHex (bs : List Nat) (h : ∀ b ∈ bs, b < 256) :
    hexstrToBytes (bytesToHex bs) = some bs := by
  rw [hexstrToBytes]
  simp only [bytesToHex_length, Nat.mul_mod_right]
  rw [if_neg (by omega), strip0x_bytesToHex, decodePairs_bytesToHex bs h]

theorem hexstrToBytes_0x_bytesToHex (bs : List Nat) (h : ∀ b ∈ bs, b < 256) :
    hexstrToBytes ('0' :: 'x' :: bytesToHex bs) = some bs := by
  rw [hexstrToBytes]
  simp only [List.length_cons, bytesToHex_length]
  rw [if_neg (by omega)]
  rw [show strip0x ('0' :: 'x' :: bytesToHex bs) = bytesToHex bs from by
    rw [strip0x, if_pos ⟨rfl, Or.inl rfl⟩]]
  exact decodePairs_bytesToHex bs h

/-! ## C4 / C5: HashCodec (`Sha3HashField` textual form, `Keccak256Field`
binary form) -/

/-- C4: a 32-byte value presented as raw bytes, as a `HexBytes` wrapper,
as a `0x`-prefixed hex string, as a bare hex string, or as any hex string
`s` decoding to those bytes, normalizes to the identical canonical
lowercase `0x`-prefixed 64-hex-digit string under `HexField.to_python`
(the `Sha3HashField` path) and to the identical 32 raw bytes under
`Keccak256Field.to_bytes`. -/
theorem hash_normalize_representation_independent (bs : List Nat) (s : List Char)
    (hb : ∀ b ∈ bs, b < 256) (hs : hexstrToBytes s = some bs) (h32 : bs.length = 32) :
    HexField.to_python (.str s) = .ok (.str ('0' :: 'x' :: bytesToHex bs)) ∧
    HexField.to_python (.bytes bs) = .ok (.str ('0' :: 'x' :: bytesToHex bs)) ∧
    HexField.to_python (.hexBytes bs) = .ok (.str ('0' :: 'x' :: bytesToHex bs)) ∧
    HexField.to_python (.str ('0' :: 'x' :: bytesToHex bs)) =
      .ok (.str ('0' :: 'x' :: bytesToHex bs)) ∧
    HexField.to_python (.str (bytesToHex bs)) = .ok (.str ('0' :: 'x' :: bytesToHex bs)) ∧
    Keccak256Field.to_bytes (.str s) = .ok (some bs) ∧
    Keccak256Field.to_bytes (.bytes bs) = .ok (some bs) ∧
    Keccak256Field.to_bytes (.hexBytes bs) = .ok (some bs) ∧
    Keccak256Field.to_bytes (.str ('0' :: 'x' :: bytesToHex bs)) = .ok (some bs) ∧
    Keccak256Field.to_bytes (.str (bytesToHex bs)) = .ok (some bs) := by
  have h0x := hexstrToBytes_0x_bytesToHex bs hb
  have hplain := hexstrToBytes_bytesToHex bs hb
  refine ⟨?_, rfl, rfl, ?_, ?_, ?_, ?_, ?_, ?_, ?_⟩ <;>
    simp [HexField.to_python, Keccak256Field.to_bytes, hexBytesOf, hs, h0x, hplain, h32]

/-- Witness for `hash_normalize_representation_independent` at the 32 zero
bytes given as the 64-digit uppercase-prefixed hex string `0X00…0`. -/
theorem hash_normalize_representation_independent_witness :
    HexField.to_python (.str (chars "0X0000000000000000000000000000000000000000000000000000000000000000")) =
      .ok (.str ('0' :: 'x' :: bytesToHex (List.replicate 32 0))) ∧
    HexField.to_python (.bytes (List.replicate 32 0)) =
      .ok (.str ('0' :: 'x' :: bytesToHex (List.replicate 32 0))) ∧
    HexField.to_python (.hexBytes (List.replicate 32 0)) =
      .ok (.str ('0' :: 'x' :: bytesToHex (List.replicate 32 0))) ∧
    HexField.to_python (.str ('0' :: 'x' :: bytesToHex (List.replicate 32 0))) =
      .ok (.str ('0' :: 'x' :: bytesToHex (List.replicate 32 0))) ∧
    HexField.to_python (.str (bytesToHex (List.replicate 32 0))) =
      .ok (.str ('0' :: 'x' :: bytesToHex (List.replicate 32 0))) ∧
    Keccak256Field.to_bytes (.str (chars "0X0000000000000000000000000000000000000000000000000000000000000000")) =
      .ok (some (List.replicate 32 0)) ∧
    Keccak256Field.to_bytes (.bytes (List.replicate 32 0)) = .ok (some (List.replicate 32 0)) ∧
    Keccak256Field.to_bytes (.hexBytes (List.replicate 32 0)) = .ok (some (List.replicate 32 0)) ∧
    Keccak256Field.to_bytes (.str ('0' :: 'x' :: bytesToHex (List.replicate 32 0))) =
      .ok (some (List.replicate 32 0)) ∧
    Keccak256Field.to_bytes (.str (bytesToHex (List.replicate 32 0))) =
      .ok (some (List.replicate 32 0)) :=
  hash_normalize_representation_independent (List.replicate 32 0) _
    (by decide) (by decide) (by decide)

/-- C5 counterexample: the claim says a value is never padded to fit, but
a 63-hex-digit string (31.5 bytes, not exactly 32) is left-padded with a
zero nibble by the `HexBytes` decoding and then accepted as 32 bytes
instead of failing. -/
theorem hash_length_padding_counterexample :
    Keccak256Field.to_bytes (.str ('0' :: 'x' :: (List.replicate 62 '0' ++ ['1']))) =
      .ok (some (List.replicate 31 0 ++ [1])) := by decide

/-- C5 amended: for every input whose `HexBytes` decoding (including its
left-zero-padding of odd-digit hex strings) has byte length different from
32, `to_bytes` fails eagerly with the `length` error carrying the
offending raw value; over-length values are never truncated, but an
odd-digit-count hex string is padded with one leading zero nibble before
the length check, so e.g. a 63-digit string passes as 32 bytes. -/
theorem hash_length_error (v : PyVal) (bs : List Nat)
    (h : hexBytesOf v = some bs) (hne : bs.length ≠ 32) :
    Keccak256Field.to_bytes v = .error (.validation (chars "length") v) := by
  cases v with
  | none => simp [hexBytesOf] at h
  | str s =>
    simp only [hexBytesOf] at h
    simp [Keccak256Field.to_bytes, hexBytesOf, h, hne]
  | bytes b =>
    simp only [hexBytesOf, Option.some.injEq] at h
    subst h
    simp [Keccak256Field.to_bytes, hexBytesOf, hne]
  | hexBytes b =>
    simp only [hexBytesOf, Option.some.injEq] at h
    subst h
    simp [Keccak256Field.to_bytes, hexBytesOf, hne]

/-- Witness for `hash_length_error` at a 33-byte hex string (the repo
test's "hash too big" case shape) and, through the same theorem, at a
31-byte raw value. -/
theorem hash_length_error_witness :
    Keccak256Field.to_bytes
      (.str (chars "0x000000000000000000000000000000000000000000000000000000000000000000")) =
      .error (.validation (chars "length")
        (.str (chars "0x000000000000000000000000000000000000000000000000000000000000000000"))) ∧
    Keccak256Field.to_bytes (.bytes (List.replicate 31 0)) =
      .error (.validation (chars "length") (.bytes (List.replicate 31 0))) :=
  ⟨hash_length_error _ (List.replicate 33 0) (by decide) (by decide),
   hash_length_error _ (List.replicate 31 0) (by decide) (by decide)⟩

/-! ## C8: HexCodec prefix discipline and round-trip -/

/-- C8: whatever the input shape — `HexBytes` wrapper, raw bytes, or a
string with or without a `0x`/`0X` marker — `HexField.get_prep_value`
stores the unprefixed lowercase hex (which `strip0x` leaves untouched:
there is no marker to strip), and `HexField.to_python` on the stored form
re-adds the `0x` marker, giving the same canonical display string as
normalizing the original input directly. -/
theorem hexfield_prefix_discipline (bs : List Nat) (s : List Char)
    (hb : ∀ b ∈ bs, b < 256) (hs : hexstrToBytes s = some bs) :
    HexField.get_prep_value (.hexBytes bs) = .ok (.str (bytesToHex bs)) ∧
    HexField.get_prep_value (.bytes bs) = .ok (.str (bytesToHex bs)) ∧
    HexField.get_prep_value (.str s) = .ok (.str (bytesToHex bs)) ∧
    strip0x (bytesToHex bs) = bytesToHex bs ∧
    HexField.to_python (.str (bytesToHex bs)) = .ok (.str ('0' :: 'x' :: bytesToHex bs)) ∧
    HexField.to_python (.str s) = .ok (.str ('0' :: 'x' :: bytesToHex bs)) := by
  have hplain := hexstrToBytes_bytesToHex bs hb
  refine ⟨rfl, rfl, ?_, strip0x_bytesToHex bs, ?_, ?_⟩ <;>
    simp [HexField.get_prep_value, HexField.to_python, hexBytesOf, hs, hplain]

/-- Witness for `hexfield_prefix_discipline` at the bytes `de ad` given as
the string `0XDEAD`. -/
theorem hexfield_prefix_discipline_witness :
    HexField.get_prep_value (.hexBytes [222, 173]) = .ok (.str (bytesToHex [222, 173])) ∧
    HexField.get_prep_value (.bytes [222, 173]) = .ok (.str (bytesToHex [222, 173])) ∧
    HexField.get_prep_value (.str (chars "0XDEAD")) = .ok (.str (bytesToHex [222, 173])) ∧
    strip0x (bytesToHex [222, 173]) = bytesToHex [222, 173] ∧
    HexField.to_python (.str (bytesToHex [222, 173])) =
      .ok (.str ('0' :: 'x' :: bytesToHex [222, 173])) ∧
    HexField.to_python (.str (chars "0XDEAD")) =
      .ok (.str ('0' :: 'x' :: bytesToHex [222, 173])) :=
  hexfield_prefix_discipline [222, 173] (chars "0XDEAD") (by decide) (by decide)

/-! ## Keccak output shape lemmas -/

theorem chi_length (s : List Nat) : (chi s).length = 25 := by
  simp [chi]

theorem iotaStep_length (rc : Nat) (s : List Nat) : (iotaStep rc s).length = s.length := by
  cases s <;> simp [iotaStep]

theorem keccakF_length (s : List Nat) : (keccakF s).length = 25 := by
  have step : ∀ (l : List Nat) (st : List Nat), st.length = 25 →
      (l.foldl (fun st rc => iotaStep rc (chi (rhoPi (theta st)))) st).length = 25 := by
    intro l
    induction l with
    | nil => intro st h; exact h
    | cons rc rest ih =>
      intro st h
      rw [List.foldl_cons]
      exact ih _ (by rw [iotaStep_length, chi_length])
  rw [keccakF, keccakRC, List.foldl_cons]
  exact step _ _ (by rw [iotaStep_length, chi_length])

theorem absorbBlocks_length (k : Nat) (st msg : List Nat) (h : st.length = 25) :
    (absorbBlocks k st msg).length = 25 := by
  induction k generalizing st msg with
  | zero => exact h
  | succ k ih => exact ih _ _ (keccakF_length _)

theorem laneToBytes_length (n : Nat) : (laneToBytes n).length = 8 := by
  simp [laneToBytes]

theorem flatten_map_const_length {α β : Type} (f : α → List β) (k : Nat)
    (hf : ∀ a, (f a).length = k) (l : List α) :
    ((l.map f).flatten).length = l.length * k := by
  induction l with
  | nil => simp
  | cons a t ih =>
    simp only [List.map_cons, List.flatten_cons, List.length_append, ih, hf a,
      List.length_cons]
    ring

theorem keccak256_length (msg : List Nat) : (keccak256 msg).length = 32 := by
  rw [keccak256]
  rw [flatten_map_const_length laneToBytes 8 laneToBytes_length]
  rw [List.length_take, absorbBlocks_length _ _ _ (by simp)]
  decide

theorem keccak256_lt (msg : List Nat) : ∀ b ∈ keccak256 msg, b < 256 := by
  intro b hb
  rw [keccak256] at hb
  simp only [List.mem_flatten, List.mem_map] at hb
  obtain ⟨l, ⟨n, _, rfl⟩, hbl⟩ := hb
  simp only [laneToBytes, List.mem_map, List.mem_range] at hbl
  obtain ⟨i, _, rfl⟩ := hbl
  exact Nat.mod_lt _ (by norm_num)

/-! ## EIP-55 checksum structure lemmas -/

theorem hexCharVal_casedChar (d h : Nat) (hd : d < 16) :
    hexCharVal (if 7 < h then upperHexDigitChar d else hexDigitChar d) = some d := by
  by_cases hh : 7 < h
  · rw [if_pos hh]; interval_cases d <;> decide
  · rw [if_neg hh]; exact hexCharVal_hexDigitChar d hd

theorem lowerChar_casedChar (d h : Nat) (hd : d < 16) :
    lowerChar (if 7 < h then upperHexDigitChar d else hexDigitChar d) = hexDigitChar d := by
  by_cases hh : 7 < h
  · rw [if_pos hh]; interval_cases d <;> decide
  · rw [if_neg hh]; interval_cases d <;> decide

theorem decodePairs_checksumCase (bs : List Nat) :
    ∀ hn : List Nat, (∀ b ∈ bs, b < 256) → 2 * bs.length ≤ hn.length →
    decodePairs (checksumCase (bytesToNibbles bs) hn) = some bs := by
  induction bs with
  | nil => intro hn _ _; rfl
  | cons b rest ih =>
    intro hn h hlen
    match hn with
    | [] => simp only [List.length_nil, List.length_cons] at hlen; omega
    | [h1] => simp only [List.length_cons, List.length_nil] at hlen; omega
    | h1 :: h2 :: hn2 =>
      have hb : b < 256 := h b (List.mem_cons_self b rest)
      have hrest := ih hn2 (fun x hx => h x (List.mem_cons_of_mem b hx))
        (by simp only [List.length_cons] at hlen ⊢; omega)
      rw [show bytesToNibbles (b :: rest) = b / 16 :: b % 16 :: bytesToNibbles rest from rfl]
      rw [show checksumCase (b / 16 :: b % 16 :: bytesToNibbles rest) (h1 :: h2 :: hn2) =
        (if 7 < h1 then upperHexDigitChar (b / 16) else hexDigitChar (b / 16)) ::
        (if 7 < h2 then upperHexDigitChar (b % 16) else hexDigitChar (b % 16)) ::
        checksumCase (bytesToNibbles rest) hn2 from rfl]
      rw [decodePairs, hexCharVal_casedChar _ _ (by omega),
        hexCharVal_casedChar _ _ (by omega), hrest]
      show some ((16 * (b / 16) + b % 16) :: rest) = some (b :: rest)
      rw [show 16 * (b / 16) + b % 16 = b from by omega]

theorem lowerStr_checksumCase (bs : List Nat) :
    ∀ hn : List Nat, (∀ b ∈ bs, b < 256) → 2 * bs.length ≤ hn.length →
    lowerStr (checksumCase (bytesToNibbles bs) hn) = bytesToHex bs := by
  induction bs with
  | nil => intro hn _ _; rfl
  | cons b rest ih =>
    intro hn h hlen
    match hn with
    | [] => simp only [List.length_nil, List.length_cons] at hlen; omega
    | [h1] => simp only [List.length_cons, List.length_nil] at hlen; omega
    | h1 :: h2 :: hn2 =>
      have hb : b < 256 := h b (List.mem_cons_self b rest)
      have hrest := ih hn2 (fun x hx => h x (List.mem_cons_of_mem b hx))
        (by simp only [List.length_cons] at hlen ⊢; omega)
      rw [show bytesToNibbles (b :: rest) = b / 16 :: b % 16 :: bytesToNibbles rest from rfl]
      rw [show checksumCase (b / 16 :: b % 16 :: bytesToNibbles rest) (h1 :: h2 :: hn2) =
        (if 7 < h1 then upperHexDigitChar (b / 16) else hexDigitChar (b / 16)) ::
        (if 7 < h2 then upperHexDigitChar (b % 16) else hexDigitChar (b % 16)) ::
        checksumCase (bytesToNibbles rest) hn2 from rfl]
      show lowerChar _ :: lowerChar _ :: lowerStr (checksumCase (bytesToNibbles rest) hn2) =
        bytesToHex (b :: rest)
      rw [lowerChar_casedChar _ _ (by omega), lowerChar_casedChar _ _ (by omega), hrest,
        bytesToHex_cons]

theorem checksummedAddress_def (bs : List Nat) :
    checksummedAddress bs = '0' :: 'x' ::
      checksumCase (bytesToNibbles bs)
        (bytesToNibbles (keccak256 ((bytesToNibbles bs).map nibbleAscii))) := rfl

theorem checksumBody_length (bs : List Nat) (h20 : bs.length = 20) :
    (checksumCase (bytesToNibbles bs)
      (bytesToNibbles (keccak256 ((bytesToNibbles bs).map nibbleAscii)))).length = 40 := by
  rw [checksumCase, List.length_zipWith, bytesToNibbles_length, bytesToNibbles_length,
    keccak256_length, h20]
  decide

theorem to_checksum_address_str (s : List Char) (bs : List Nat)
    (hd : decodePairs (strip0x s) = some bs) (h40 : (strip0x s).length = 40) :
    to_checksum_address (.str s) = some (checksummedAddress bs) := by
  rw [to_checksum_address]
  simp only [h40, if_pos, hd]

theorem to_checksum_address_str_fail (s : List Char)
    (hbad : (strip0x s).length ≠ 40 ∨ decodePairs (strip0x s) = Option.none) :
    to_checksum_address (.str s) = Option.none := by
  rw [to_checksum_address]
  rcases hbad with h | h
  · simp only [h, if_neg, if_false]
  · by_cases h40 : (strip0x s).length = 40
    · simp only [h40, if_pos, h]
    · simp only [h40, if_neg, if_false]

theorem v1_to_python_valid (s : List Char) (bs : List Nat)
    (hd : decodePairs (strip0x s) = some bs) (h40 : (strip0x s).length = 40) :
    EthereumAddressField.to_python (some s) = .ok (some (checksummedAddress bs)) := by
  have hne : s ≠ [] := by
    intro h
    subst h
    rw [show strip0x ([] : List Char) = [] from rfl] at h40
    simp at h40
  rw [EthereumAddressField.to_python, if_neg hne, to_checksum_address_str s bs hd h40]

theorem v2_to_python_str_valid (s : List Char) (bs : List Nat)
    (hd : decodePairs (strip0x s) = some bs) (h40 : (strip0x s).length = 40) :
    EthereumAddressV2Field.to_python (.str s) = .ok (some (checksummedAddress bs)) := by
  rw [show EthereumAddressV2Field.to_python (.str s) =
      (match to_checksum_address (.str s) with
        | some cs => .ok (some cs)
        | Option.none => .error (.validation (chars "invalid") (.str s))) from rfl,
    to_checksum_address_str s bs hd h40]

theorem v2_to_python_bytes_valid (bs : List Nat) (h20 : bs.length = 20)
    (hb : ∀ b ∈ bs, b < 256) :
    EthereumAddressV2Field.to_python (.bytes bs) = .ok (some (checksummedAddress bs)) := by
  have hall : bs.all (fun b => decide (b < 256)) = true :=
    List.all_eq_true.mpr fun x hx => decide_eq_true (hb x hx)
  rw [show EthereumAddressV2Field.to_python (.bytes bs) =
      (match to_checksum_address (.bytes bs) with
        | some cs => .ok (some cs)
        | Option.none => .error (.validation (chars "invalid") (.bytes bs))) from rfl]
  rw [show to_checksum_address (.bytes bs) =
      (if bs.length = 20 ∧ bs.all (· < 256) then some (checksummedAddress bs)
       else Option.none) from rfl]
  rw [if_pos ⟨h20, hall⟩]

theorem v1_to_python_invalid (s : List Char) (hne : s ≠ [])
    (hbad : (strip0x s).length ≠ 40 ∨ decodePairs (strip0x s) = Option.none) :
    EthereumAddressField.to_python (some s) =
      .error (.validation (chars "invalid") (.str s)) := by
  rw [EthereumAddressField.to_python, if_neg hne, to_checksum_address_str_fail s hbad]

theorem v2_to_python_str_invalid (s : List Char)
    (hbad : (strip0x s).length ≠ 40 ∨ decodePairs (strip0x s) = Option.none) :
    EthereumAddressV2Field.to_python (.str s) =
      .error (.validation (chars "invalid") (.str s)) := by
  rw [show EthereumAddressV2Field.to_python (.str s) =
      (match to_checksum_address (.str s) with
        | some cs => .ok (some cs)
        | Option.none => .error (.validation (chars "invalid") (.str s))) from rfl,
    to_checksum_address_str_fail s hbad]

/-! ## C2: address normalization -/

/-- C2 counterexample: the claim demands that every input which does not
hex-decode to exactly 20 bytes fail with the invalid-address error, but
the `CharField` variant returns a falsy value — the empty string, which
decodes to 0 bytes — unchanged instead of failing. -/
theorem address_normalize_empty_counterexample :
    EthereumAddressField.to_python (some []) = .ok (some []) := rfl

/-- C2 amended: for well-formed inputs (a hex string whose unprefixed form
is 40 hex digits, in any letter case and with or without `0x`/`0X`, or raw
20 bytes on the binary field) normalization returns the unique canonical
EIP-55 checksummed string of the decoded bytes — hence is independent of
the input case pattern — and every NON-EMPTY string input that is not
valid hex of exactly 20 bytes fails with the `invalid` validation error
carrying the offending value (the `CharField` variant passes the empty
string through unchanged). -/
theorem address_normalize_total :
    (∀ s bs, decodePairs (strip0x s) = some bs → (strip0x s).length = 40 →
      EthereumAddressField.to_python (some s) = .ok (some (checksummedAddress bs)) ∧
      EthereumAddressV2Field.to_python (.str s) = .ok (some (checksummedAddress bs))) ∧
    (∀ bs, bs.length = 20 → (∀ b ∈ bs, b < 256) →
      EthereumAddressV2Field.to_python (.bytes bs) = .ok (some (checksummedAddress bs))) ∧
    (∀ s1 s2 bs, decodePairs (strip0x s1) = some bs → (strip0x s1).length = 40 →
      decodePairs (strip0x s2) = some bs → (strip0x s2).length = 40 →
      EthereumAddressField.to_python (some s1) = EthereumAddressField.to_python (some s2)) ∧
    (∀ s, s ≠ [] →
      ((strip0x s).length ≠ 40 ∨ decodePairs (strip0x s) = Option.none) →
      EthereumAddressField.to_python (some s) =
        .error (.validation (chars "invalid") (.str s)) ∧
      EthereumAddressV2Field.to_python (.str s) =
        .error (.validation (chars "invalid") (.str s))) := by
  refine ⟨fun s bs hd h40 => ⟨v1_to_python_valid s bs hd h40, v2_to_python_str_valid s bs hd h40⟩,
    fun bs h20 hb => v2_to_python_bytes_valid bs h20 hb,
    fun s1 s2 bs hd1 h1 hd2 h2 => ?_,
    fun s hne hbad => ⟨v1_to_python_invalid s hne hbad, v2_to_python_str_invalid s hbad⟩⟩
  rw [v1_to_python_valid s1 bs hd1 h1, v1_to_python_valid s2 bs hd2 h2]

/-- Witness for `address_normalize_total`: the EIP-55 test address
`de709f2102306220921060314715629080e2fb77` given fully uppercase with a
`0X` marker and bare lowercase, and the repo test's invalid input `0x23`. -/
theorem address_normalize_total_witness :
    (EthereumAddressField.to_python
        (some (chars "0XDE709F2102306220921060314715629080E2FB77")) =
      .ok (some (checksummedAddress
        [0xde, 0x70, 0x9f, 0x21, 0x02, 0x30, 0x62, 0x20, 0x92, 0x10,
         0x60, 0x31, 0x47, 0x15, 0x62, 0x90, 0x80, 0xe2, 0xfb, 0x77])) ∧
      EthereumAddressV2Field.to_python
        (.str (chars "0XDE709F2102306220921060314715629080E2FB77")) =
      .ok (some (checksummedAddress
        [0xde, 0x70, 0x9f, 0x21, 0x02, 0x30, 0x62, 0x20, 0x92, 0x10,
         0x60, 0x31, 0x47, 0x15, 0x62, 0x90, 0x80, 0xe2, 0xfb, 0x77]))) ∧
    EthereumAddressV2Field.to_python
        (.bytes [0xde, 0x70, 0x9f, 0x21, 0x02, 0x30, 0x62, 0x20, 0x92, 0x10,
          0x60, 0x31, 0x47, 0x15, 0x62, 0x90, 0x80, 0xe2, 0xfb, 0x77]) =
      .ok (some (checksummedAddress
        [0xde, 0x70, 0x9f, 0x21, 0x02, 0x30, 0x62, 0x20, 0x92, 0x10,
         0x60, 0x31, 0x47, 0x15, 0x62, 0x90, 0x80, 0xe2, 0xfb, 0x77])) ∧
    EthereumAddressField.to_python
        (some (chars "0XDE709F2102306220921060314715629080E2FB77")) =
      EthereumAddressField.to_python
        (some (chars "de709f2102306220921060314715629080e2fb77")) ∧
    (EthereumAddressField.to_python (some (chars "0x23")) =
        .error (.validation (chars "invalid") (.str (chars "0x23"))) ∧
      EthereumAddressV2Field.to_python (.str (chars "0x23")) =
        .error (.validation (chars "invalid") (.str (chars "0x23")))) :=
  ⟨address_normalize_total.1 _ _ (by decide) (by decide),
   address_normalize_total.2.1 _ (by decide) (by decide),
   address_normalize_total.2.2.1 _ _
     [0xde, 0x70, 0x9f, 0x21, 0x02, 0x30, 0x62, 0x20, 0x92, 0x10,
      0x60, 0x31, 0x47, 0x15, 0x62, 0x90, 0x80, 0xe2, 0xfb, 0x77]
     (by decide) (by decide) (by decide) (by decide),
   address_normalize_total.2.2.2 _ (by decide) (by decide)⟩

/-! ## C3: checksum-case-sensitive validation -/

/-- C3 counterexample: the EIP-55 test address
`de709f2102306220921060314715629080e2fb77` has a checksummed form that
contains alphabetic hex digits (`d`, `e`, `f`, `b`) yet is entirely
lowercase, so the all-lowercase form of the checksummed string IS the
checksummed string and `validate` accepts it — refuting the claim that
validation of the lowercased form returns false whenever the checksummed
form contains any alphabetic hex digit. -/
theorem address_validate_lowercase_counterexample :
    checksummedAddress
        [0xde, 0x70, 0x9f, 0x21, 0x02, 0x30, 0x62, 0x20, 0x92, 0x10,
         0x60, 0x31, 0x47, 0x15, 0x62, 0x90, 0x80, 0xe2, 0xfb, 0x77] =
      chars "0xde709f2102306220921060314715629080e2fb77" ∧
    'd' ∈ chars "0xde709f2102306220921060314715629080e2fb77" ∧
    lowerStr (chars "0xde709f2102306220921060314715629080e2fb77") =
      chars "0xde709f2102306220921060314715629080e2fb77" ∧
    validate_checksumed_address
      (chars "0xde709f2102306220921060314715629080e2fb77") = true :=
  ⟨by decide, by decide, by decide, by decide⟩

/-- C3 amended: for every 20-byte address, `validate` accepts the
checksummed form, and rejects the all-lowercase form whenever the
checksummed form differs from its own lowercasing — that is, whenever it
contains at least one UPPERCASE alphabetic hex digit (an all-lowercase
checksum, as in the counterexample, is its own lowercasing and still
validates). -/
theorem address_validate_checksum_case (bs : List Nat) (h20 : bs.length = 20)
    (hb : ∀ b ∈ bs, b < 256)
    (hup : lowerStr (checksummedAddress bs) ≠ checksummedAddress bs) :
    validate_checksumed_address (checksummedAddress bs) = true ∧
    validate_checksumed_address (lowerStr (checksummedAddress bs)) = false := by
  have hhashlen : 2 * bs.length ≤
      (bytesToNibbles (keccak256 ((bytesToNibbles bs).map nibbleAscii))).length := by
    rw [bytesToNibbles_length, keccak256_length]
    omega
  have hdec := decodePairs_checksumCase bs _ hb hhashlen
  have hlow := lowerStr_checksumCase bs _ hb hhashlen
  have hbody := checksumBody_length bs h20
  have hlowfull : lowerStr (checksummedAddress bs) = '0' :: 'x' :: bytesToHex bs := by
    rw [checksummedAddress_def]
    show lowerChar '0' :: lowerChar 'x' ::
      lowerStr (checksumCase (bytesToNibbles bs)
        (bytesToNibbles (keccak256 ((bytesToNibbles bs).map nibbleAscii)))) = _
    rw [hlow, show lowerChar '0' = '0' from by decide, show lowerChar 'x' = 'x' from by decide]
  constructor
  · rw [checksummedAddress_def, validate_checksumed_address, if_pos ⟨rfl, rfl⟩,
      if_pos hbody]
    simp only [hdec]
    rw [if_pos (checksummedAddress_def bs).symm]
  · have hne2 : ('0' :: 'x' :: bytesToHex bs) ≠ checksummedAddress bs := by
      intro heq
      exact hup (by rw [hlowfull, heq])
    rw [hlowfull, validate_checksumed_address, if_pos ⟨rfl, rfl⟩,
      if_pos (by simp [bytesToHex_length, h20])]
    simp only [decodePairs_bytesToHex bs hb]
    rw [if_neg hne2]

/-- Witness for `address_validate_checksum_case` at the EIP-55 test
address `0x5aAeb6053F3E94C9b9A09f33669435E7Ef1BeAed`, whose checksummed
form contains uppercase digits. -/
theorem address_validate_checksum_case_witness :
    validate_checksumed_address (checksummedAddress
      [0x5a, 0xae, 0xb6, 0x05, 0x3f, 0x3e, 0x94, 0xc9, 0xb9, 0xa0,
       0x9f, 0x33, 0x66, 0x94, 0x35, 0xe7, 0xef, 0x1b, 0xea, 0xed]) = true ∧
    validate_checksumed_address (lowerStr (checksummedAddress
      [0x5a, 0xae, 0xb6, 0x05, 0x3f, 0x3e, 0x94, 0xc9, 0xb9, 0xa0,
       0x9f, 0x33, 0x66, 0x94, 0x35, 0xe7, 0xef, 0x1b, 0xea, 0xed])) = false :=
  address_validate_checksum_case _ (by decide) (by decide) (by decide)
